import Mathlib

/-!
# MedGemaCare — verification of the spec against the code

Shallow embedding of the parts of the MedGemaCare repository that the
frozen claims are about:

* `src/app/schemas/requests.py` — pydantic validation of `top_k`;
* `src/app/schemas/responses.py` — the response record types;
* `src/app/api/routes.py` — `health_check`, `upload_document`,
  `rag_summarize`, `rag_question` response construction;
* `src/app/api/patients.py` — `create_prescription`, `list_prescriptions`,
  `upload_report` together with a concrete model of the `json`
  collaborator (`dumps` / `loads`) and of the SQLite rows they touch;
* the RAG pipeline (`app/rag/rag_pipeline.py` is not part of the sources
  at hand, so the chunker, the embedding index and the two query
  operations are modelled from the spec, as marked on each definition).

Machine integers are modelled by `Nat`/`Int` (none of the embedded code
overflows), strings by `String` or `List Char`, fallible code by
`Option`/`Except`, and the process-wide SQLite state by explicit record
passing.
-/

/-! ## The `json` collaborator: a concrete model of `json.dumps` / `json.loads`

`create_prescription` stores `json.dumps(medicines)` in a TEXT column and
returns `json.loads` of the value read back.  The collaborator is modelled
by a concrete serializer and parser over `List Char`.  Model scope: compact
separators (`,`/`:`) and the escapes `\"` and `\\`; the `\uXXXX` and
control-character escapes of the Python library are not modelled (no claim
depends on them). -/

mutual
inductive Json where
| null : Json
| bool (b : Bool) : Json
| num (n : Int) : Json
| str (s : List Char) : Json
| arr (items : JsonList) : Json
| obj (members : JsonObj) : Json

inductive JsonList where
| nil : JsonList
| cons (head : Json) (tail : JsonList) : JsonList

inductive JsonObj where
| nil : JsonObj
| cons (key : List Char) (value : Json) (tail : JsonObj) : JsonObj
end

/-- The `{` character, kept out of string literals. -/
def lbraceChar : Char := Char.ofNat 123

/-- The `}` character, kept out of string literals. -/
def rbraceChar : Char := Char.ofNat 125

/-- The decimal digit character for `d` (meaningful for `d < 10`). -/
def digitChar (d : Nat) : Char := Char.ofNat (48 + d)

/-- Inverse of `digitChar`: the value of a decimal digit character. -/
def charToDigit (c : Char) : Option Nat :=
  if 48 ≤ c.toNat ∧ c.toNat ≤ 57 then some (c.toNat - 48) else none

/-- Decimal digit characters of `n`, most significant first; `fuel` is
spent one unit per digit and `encodeNat` supplies enough. -/
def natChars : Nat → Nat → List Char
| 0, _ => []
| fuel + 1, n =>
  if n < 10 then [digitChar n] else natChars fuel (n / 10) ++ [digitChar (n % 10)]

/-- Decimal rendering of a natural number, most significant digit first. -/
def encodeNat (n : Nat) : List Char := natChars (n + 1) n

/-- Decimal rendering of an integer, Python style (`-` prefix when negative). -/
def encodeInt (n : Int) : List Char :=
  if n < 0 then '-' :: encodeNat n.natAbs else encodeNat n.natAbs

/-- JSON escaping of one character: `"` and `\` get a backslash, the rest
pass through. -/
def escapeChar (c : Char) : List Char :=
  if c = '"' then ['\\', '"']
  else if c = '\\' then ['\\', '\\']
  else [c]

/-- The escaped body of a JSON string (no surrounding quotes). -/
def escBody (s : List Char) : List Char :=
  s.foldr (fun c acc => escapeChar c ++ acc) []

/-- A JSON string literal: quotes around the escaped body. -/
def encodeStr (s : List Char) : List Char :=
  '"' :: (escBody s ++ ['"'])

mutual
/-- `json.dumps` of one value, as a character list. -/
def Json.dumpChars : Json → List Char
| .null => "null".data
| .bool true => "true".data
| .bool false => "false".data
| .num n => encodeInt n
| .str s => encodeStr s
| .arr items => '[' :: JsonList.dumpItems items
| .obj members => lbraceChar :: JsonObj.dumpMembers members

/-- Comma-separated array items, including the closing bracket. -/
def JsonList.dumpItems : JsonList → List Char
| .nil => [']']
| .cons v .nil => Json.dumpChars v ++ [']']
| .cons v (.cons w tl) => Json.dumpChars v ++ ',' :: JsonList.dumpItems (.cons w tl)

/-- Comma-separated object members, including the closing brace. -/
def JsonObj.dumpMembers : JsonObj → List Char
| .nil => [rbraceChar]
| .cons k v .nil => encodeStr k ++ ':' :: (Json.dumpChars v ++ [rbraceChar])
| .cons k v (.cons k2 v2 tl) =>
    encodeStr k ++ ':' :: (Json.dumpChars v ++ ',' :: JsonObj.dumpMembers (.cons k2 v2 tl))
end

/-- `json.dumps`. -/
def Json.dumps (j : Json) : List Char := Json.dumpChars j

/-- Longest run of leading decimal digits, as digit values, with the rest. -/
def parseDigits : List Char → List Nat × List Char
| [] => ([], [])
| c :: rest =>
  match charToDigit c with
  | some d => let p := parseDigits rest; (d :: p.1, p.2)
  | none => ([], c :: rest)

/-- Parse a nonempty digit run into a natural number. -/
def parseNat (cs : List Char) : Option (Nat × List Char) :=
  match parseDigits cs with
  | ([], _) => none
  | (ds, rest) => some (Nat.ofDigits 10 ds.reverse, rest)

/-- Parse the body of a string literal after the opening quote; `fuel` is
spent one unit per character run and `parseStr` supplies enough. -/
def parseStrAux : Nat → List Char → Option (List Char × List Char)
| 0, _ => none
| _ + 1, [] => none
| fuel + 1, c :: rest =>
  if c = '"' then some ([], rest)
  else if c = '\\' then
    match rest with
    | [] => none
    | e :: rest2 =>
      if e = '"' ∨ e = '\\' then
        match parseStrAux fuel rest2 with
        | some p => some (e :: p.1, p.2)
        | none => none
      else none
  else
    match parseStrAux fuel rest with
    | some p => some (c :: p.1, p.2)
    | none => none

/-- Parse the body of a string literal after the opening quote. -/
def parseStr (cs : List Char) : Option (List Char × List Char) :=
  parseStrAux (cs.length + 1) cs

mutual
/-- Parse one JSON value.  `fuel` bounds the nesting the parser will build;
`Json.loads` supplies enough for any input. -/
def parseJson : Nat → List Char → Option (Json × List Char)
| 0, _ => none
| fuel + 1, cs =>
  match cs with
  | [] => none
  | c :: rest =>
    if c = lbraceChar then parseMembers fuel rest
    else if c = '"' then
      match parseStr rest with
      | some p => some (.str p.1, p.2)
      | none => none
    else if c = '-' then
      match parseNat rest with
      | some p => some (.num (-(p.1 : Int)), p.2)
      | none => none
    else if c = '[' then parseItems fuel rest
    else
      match charToDigit c with
      | some _ =>
        match parseNat (c :: rest) with
        | some p => some (.num (p.1 : Int), p.2)
        | none => none
      | none =>
        match c :: rest with
        | 'n' :: 'u' :: 'l' :: 'l' :: r => some (.null, r)
        | 't' :: 'r' :: 'u' :: 'e' :: r => some (.bool true, r)
        | 'f' :: 'a' :: 'l' :: 's' :: 'e' :: r => some (.bool false, r)
        | _ => none

/-- Parse array items after the opening bracket, through the closing one. -/
def parseItems : Nat → List Char → Option (Json × List Char)
| 0, _ => none
| fuel + 1, cs =>
  match cs with
  | ']' :: rest => some (.arr .nil, rest)
  | _ =>
    match parseJson fuel cs with
    | some (v, rest1) =>
      match rest1 with
      | ']' :: rest2 => some (.arr (.cons v .nil), rest2)
      | ',' :: rest2 =>
        match parseItems fuel rest2 with
        | some (.arr tl, rest3) => some (.arr (.cons v tl), rest3)
        | _ => none
      | _ => none
    | none => none

/-- Parse object members after the opening brace, through the closing one. -/
def parseMembers : Nat → List Char → Option (Json × List Char)
| 0, _ => none
| fuel + 1, cs =>
  match cs with
  | [] => none
  | c :: rest =>
    if c = rbraceChar then some (.obj .nil, rest)
    else if c = '"' then
      match parseStr rest with
      | some (k, rest1) =>
        match rest1 with
        | ':' :: rest2 =>
          match parseJson fuel rest2 with
          | some (v, rest3) =>
            match rest3 with
            | [] => none
            | c2 :: rest4 =>
              if c2 = ',' then
                match parseMembers fuel rest4 with
                | some (.obj tl, rest5) => some (.obj (.cons k v tl), rest5)
                | _ => none
              else if c2 = rbraceChar then some (.obj (.cons k v .nil), rest4)
              else none
          | none => none
        | _ => none
      | none => none
    else none
end

/-- `json.loads`: parse a complete value; trailing input is an error. -/
def Json.loads (cs : List Char) : Option Json :=
  match parseJson (cs.length + 1) cs with
  | some (j, []) => some j
  | _ => none

mutual
/-- Fuel needed by `parseJson` for a value (one unit per nesting step). -/
def Json.size : Json → Nat
| .arr items => 1 + JsonList.size items
| .obj members => 1 + JsonObj.size members
| .null | .bool _ | .num _ | .str _ => 1

/-- Fuel needed by `parseItems` for an item list. -/
def JsonList.size : JsonList → Nat
| .nil => 1
| .cons v tl => 1 + max (Json.size v) (JsonList.size tl)

/-- Fuel needed by `parseMembers` for a member list. -/
def JsonObj.size : JsonObj → Nat
| .nil => 1
| .cons _ v tl => 1 + max (Json.size v) (JsonObj.size tl)
end

/-- Inputs that cannot extend a decimal literal: empty, or headed by a
non-digit.  Every JSON delimiter (`,`, `]`, `:`, closing brace, end of
input) qualifies. -/
def headNotDigit : List Char → Bool
| [] => true
| c :: _ => (charToDigit c).isNone

deriving instance DecidableEq for Json, JsonList, JsonObj

/-! ## `src/app/schemas/requests.py` — pydantic validation of `top_k`

`RAGSummaryRequest.top_k` and `RAGQuestionRequest.top_k` are declared as
`Optional[int] = Field(None, ge=1, le=20)`.  Pydantic accepts an absent
value and checks a supplied one against the bounds, rejecting the request
with a validation error (HTTP 422) when a bound fails. -/

/-- A pydantic validation error: field location and message. -/
structure ValidationError where
  loc : String
  msg : String
deriving DecidableEq

/-- Validation of `RAGSummaryRequest.top_k`
(`Field(None, ge=1, le=20)`, src/app/schemas/requests.py:40-45). -/
def RAGSummaryRequest.validateTopK (v : Option Int) : Except ValidationError (Option Int) :=
  match v with
  | none => .ok none
  | some n =>
    if n < 1 then .error ⟨"top_k", "Input should be greater than or equal to 1"⟩
    else if 20 < n then .error ⟨"top_k", "Input should be less than or equal to 20"⟩
    else .ok (some n)

/-- Validation of `RAGQuestionRequest.top_k`
(`Field(None, ge=1, le=20)`, src/app/schemas/requests.py:52-57). -/
def RAGQuestionRequest.validateTopK (v : Option Int) : Except ValidationError (Option Int) :=
  match v with
  | none => .ok none
  | some n =>
    if n < 1 then .error ⟨"top_k", "Input should be greater than or equal to 1"⟩
    else if 20 < n then .error ⟨"top_k", "Input should be less than or equal to 20"⟩
    else .ok (some n)

/-! ## `src/app/schemas/responses.py` — the response record types -/

/-- `HealthResponse` (src/app/schemas/responses.py:8-14). -/
structure HealthResponse where
  status : String
  model_loaded : Bool
  version : String
  ml_available : Bool
deriving DecidableEq

/-- `SummaryResponse` (src/app/schemas/responses.py:17-22). -/
structure SummaryResponse where
  summary : String
  input_length : Nat
  summary_length : Nat
deriving DecidableEq

/-- `RAGAnswerResponse` (src/app/schemas/responses.py:32-41). -/
structure RAGAnswerResponse where
  question : String
  answer : String
  num_chunks_used : Nat
  relevant_chunks : Option (List String)
deriving DecidableEq

/-- `DocumentUploadResponse` (src/app/schemas/responses.py:44-51). -/
structure DocumentUploadResponse where
  filename : String
  file_size : Nat
  format : String
  processed : Bool
  message : String
deriving DecidableEq

/-! ## `src/app/api/routes.py` — response construction -/

/-- `health_check` (src/app/api/routes.py:44-52): `model_loaded` is
`is_loaded() if is_available() else False`, `ml_available` is
`is_available()`.  The collaborator state is the pair of booleans. -/
def health_check (version : String) (available loaded : Bool) : HealthResponse :=
  { status := "healthy"
    model_loaded := if available then loaded else false
    version := version
    ml_available := available }

/-- `Path(filename).suffix.lstrip(".")` as used by the upload routes: the
characters after the last dot, empty when there is no dot.  (The
hidden-file edge case `".txt"`, where `Path.suffix` is empty, is not
modelled; no claim touches it.) -/
def fileSuffix (name : List Char) : List Char :=
  if '.' ∈ name then ((name.reverse.takeWhile (fun c => c ≠ '.')).reverse) else []

/-- `upload_document` (src/app/api/routes.py:127-163) on the success path.
The RAG call `rag_pipeline.process_large_document(text)` is modelled by the
chunk count it indexes (`pipelineChunkCount`); the route discards that
value and builds the response from the file metadata alone. -/
def upload_document (filename : String) (content : List Nat)
    (pipelineChunkCount : Nat) : DocumentUploadResponse :=
  { filename := filename
    file_size := content.length
    format := String.mk (fileSuffix filename.data)
    processed := true
    message := "Document processed and indexed successfully" }

/-- `rag_summarize` (src/app/api/routes.py:206-239) on the success path.
The pipeline call is modelled by its outcome: the summary text the route
receives, paired with the chunks the pipeline used internally (spec §4.5,
`summarize_with_retrieval -> (summary_text, chunks_used)`); the route
reads only the text. -/
def rag_summarize (pipelineResult : String × List String) : SummaryResponse :=
  { summary := pipelineResult.1
    input_length := 0
    summary_length := pipelineResult.1.length }

/-- The dict returned by `rag_pipeline.answer_question_with_rag`, as
consumed by `rag_question` (src/app/api/routes.py:260-270). -/
structure RagAnswerResult where
  question : String
  answer : String
  num_chunks_used : Nat
  relevant_chunks : List String
deriving DecidableEq

/-- `rag_question` (src/app/api/routes.py:242-276) on the success path:
the response copies `question`, `answer`, `num_chunks_used` and
`relevant_chunks` from the pipeline result. -/
def rag_question (result : RagAnswerResult) : RAGAnswerResponse :=
  { question := result.question
    answer := result.answer
    num_chunks_used := result.num_chunks_used
    relevant_chunks := some result.relevant_chunks }

/-! ## `src/app/api/patients.py` — prescriptions and reports over SQLite

The SQLite tables are modelled as in-memory lists with an
`AUTOINCREMENT` counter; `conn.execute("INSERT ...")` prepends the new
row (so that "ORDER BY created_at DESC" is list order) and
`cur.lastrowid` is the id the counter handed out. -/

/-- A row of the `prescriptions` table (src/app/database.py:41-50);
`medicines` is the TEXT column holding `json.dumps` output. -/
structure PrescriptionRow where
  id : Nat
  patient_id : Int
  doctor_name : String
  diagnosis : String
  medicines : List Char
  notes : String
deriving DecidableEq

/-- The prescriptions table plus its AUTOINCREMENT counter. -/
structure PrescriptionsDb where
  nextId : Nat
  rows : List PrescriptionRow
deriving DecidableEq

/-- The request body of `create_prescription` after the `body.get` calls
(src/app/api/patients.py:77-81); `medicines` is the supplied JSON list. -/
structure PrescriptionBody where
  patient_id : Int
  doctor_name : String
  diagnosis : String
  medicines : JsonList
  notes : String

/-- A prescription dict as returned to the caller: `dict(row)` with
`item["medicines"] = json.loads(item["medicines"])`
(src/app/api/patients.py:69-70 and 90-91). -/
structure PrescriptionItem where
  id : Nat
  patient_id : Int
  doctor_name : String
  diagnosis : String
  medicines : Option Json
  notes : String
deriving DecidableEq

/-- `dict(row)` with the `medicines` column decoded by `json.loads`. -/
def rowToItem (r : PrescriptionRow) : PrescriptionItem :=
  { id := r.id
    patient_id := r.patient_id
    doctor_name := r.doctor_name
    diagnosis := r.diagnosis
    medicines := Json.loads r.medicines
    notes := r.notes }

/-- `SELECT * FROM prescriptions WHERE id=?`. -/
def selectPrescription (db : PrescriptionsDb) (i : Nat) : Option PrescriptionRow :=
  db.rows.find? (fun r => r.id == i)

/-- `create_prescription` (src/app/api/patients.py:75-92): INSERT a row
with `medicines = json.dumps(body.medicines)`, SELECT it back by
`lastrowid`, decode `medicines`, return the dict and the new table
state. -/
def create_prescription (body : PrescriptionBody) (db : PrescriptionsDb) :
    Option PrescriptionItem × PrescriptionsDb :=
  let row : PrescriptionRow :=
    { id := db.nextId
      patient_id := body.patient_id
      doctor_name := body.doctor_name
      diagnosis := body.diagnosis
      medicines := Json.dumps (.arr body.medicines)
      notes := body.notes }
  let db' : PrescriptionsDb := { nextId := db.nextId + 1, rows := row :: db.rows }
  ((selectPrescription db' row.id).map rowToItem, db')

/-- `list_prescriptions` (src/app/api/patients.py:60-72): SELECT by
patient, newest first, decoding each `medicines` column. -/
def list_prescriptions (pid : Int) (db : PrescriptionsDb) : List PrescriptionItem :=
  (db.rows.filter (fun r => r.patient_id == pid)).map rowToItem

/-- An `HTTPException`: status code and detail string. -/
structure HttpError where
  status_code : Nat
  detail : String
deriving DecidableEq

/-- `str(e)` for an `HTTPException`, as it appears in the re-wrapped
detail: `"<status>: <detail>"`. -/
def HttpError.toMessage (e : HttpError) : String :=
  toString e.status_code ++ ": " ++ e.detail

/-- A row of the `reports` table (src/app/database.py:52-59). -/
structure ReportRow where
  id : Nat
  patient_id : Int
  doctor_name : String
  title : String
  file_path : String
deriving DecidableEq

/-- The reports table, its AUTOINCREMENT counter, and the upload
directory (filename to byte content). -/
structure ReportsState where
  nextId : Nat
  reports : List ReportRow
  files : List (String × List Nat)
deriving DecidableEq

/-- The `try` body of `upload_report` (src/app/api/patients.py:115-131):
reject empty content with HTTP 400 before any write; otherwise write the
file, INSERT the row and return it. -/
def upload_report_body (patient_id : Int) (doctor_name title filename : String)
    (content : List Nat) (st : ReportsState) :
    Except HttpError ReportRow × ReportsState :=
  if content.isEmpty then (.error ⟨400, "File is empty"⟩, st)
  else
    let destName := toString patient_id ++ "_" ++ filename
    let row : ReportRow :=
      { id := st.nextId
        patient_id := patient_id
        doctor_name := doctor_name
        title := title
        file_path := destName }
    let st' : ReportsState :=
      { nextId := st.nextId + 1
        reports := row :: st.reports
        files := (destName, content) :: st.files }
    (.ok row, st')

/-- `upload_report` (src/app/api/patients.py:107-134): the `except
Exception` clause catches every exception — the internal
`HTTPException(400)` included — and re-raises HTTP 500 with
`"Upload failed: " + str(e)`. -/
def upload_report (patient_id : Int) (doctor_name title filename : String)
    (content : List Nat) (st : ReportsState) :
    Except HttpError ReportRow × ReportsState :=
  match upload_report_body patient_id doctor_name title filename content st with
  | (.ok row, st') => (.ok row, st')
  | (.error e, st') => (.error ⟨500, "Upload failed: " ++ e.toMessage⟩, st')

/-! ## The RAG pipeline, modelled from the spec

`app/rag/rag_pipeline.py` is not among the sources at hand (the routes
only call it), so the definitions below are modelled from the spec:
§3 for the Chunk record, §4.1 for the Chunker, §4.2 for
`EmbeddingIndex.query`, §4.3 for `top_k` resolution, §4.4 for the
prompt, §4.5 for the two query operations. -/

/-- Modelled from the spec (§3): a Chunk record.  `created_at` is not
modelled (no claim mentions it); embeddings are rational vectors. -/
structure Chunk where
  chunk_id : Nat
  doc_id : Nat
  text : String
  char_offset_start : Nat
  char_offset_end : Nat
  embedding : List ℚ
deriving DecidableEq

/-- Ranking order on scored chunks (§4.2): higher similarity first, ties
broken by earlier `chunk_id`. -/
def rankLE (a b : Chunk × ℚ) : Prop :=
  b.2 < a.2 ∨ (a.2 = b.2 ∧ a.1.chunk_id ≤ b.1.chunk_id)

instance : DecidableRel rankLE := fun a b =>
  inferInstanceAs (Decidable (b.2 < a.2 ∨ (a.2 = b.2 ∧ a.1.chunk_id ≤ b.1.chunk_id)))

instance : IsTotal (Chunk × ℚ) rankLE where
  total a b := by
    rcases lt_trichotomy a.2 b.2 with h | h | h
    · exact Or.inr (Or.inl h)
    · rcases Nat.le_total a.1.chunk_id b.1.chunk_id with hn | hn
      · exact Or.inl (Or.inr ⟨h, hn⟩)
      · exact Or.inr (Or.inr ⟨h.symm, hn⟩)
    · exact Or.inl (Or.inl h)

instance : IsTrans (Chunk × ℚ) rankLE where
  trans a b c hab hbc := by
    rcases hab with hab | ⟨hab, hab'⟩ <;> rcases hbc with hbc | ⟨hbc, hbc'⟩
    · exact Or.inl (lt_trans hbc hab)
    · exact Or.inl (hbc ▸ hab)
    · exact Or.inl (hab ▸ hbc)
    · exact Or.inr ⟨hab.trans hbc, le_trans hab' hbc'⟩

/-- Modelled from the spec (§4.2): `EmbeddingIndex.query` scores every
stored chunk against the query embedding, sorts by descending score with
ties broken by earlier `chunk_id`, and returns the top `k`.  The spec
fixes cosine similarity as the metric; square roots leave `ℚ`, and no
claim depends on the metric itself, so the similarity function `sim` is a
parameter of the model. -/
def EmbeddingIndex.query (sim : List ℚ → List ℚ → ℚ) (q : List ℚ) (k : Nat)
    (idx : List Chunk) : List (Chunk × ℚ) :=
  (List.insertionSort rankLE (idx.map (fun c => (c, sim q c.embedding)))).take k

/-- Modelled from the spec (§4.3): `top_k` resolution — a configured
default of 5 when absent, otherwise clamped into `[1, 20]`. -/
def resolveTopK : Option Int → Nat
| none => 5
| some v => (min 20 (max 1 v)).toNat

/-- Modelled from the spec (§4.4): the prompt is the instruction followed
by the retrieved chunk texts in ranked order.  The
`max_prompt_chars` truncation is not modelled (no claim depends on it). -/
def PromptAssembler.assemble (instruction : String) (chunks : List Chunk) : String :=
  instruction ++ "\n\nContext:\n" ++ String.intercalate "\n\n" (chunks.map Chunk.text)

/-- Modelled from the spec (§4.5): the instruction of
`answer_with_retrieval`. -/
def answerInstruction (question : String) : String :=
  "Answer the question using only the provided context. Question: " ++ question

/-- Modelled from the spec (§4.5): the instruction of
`summarize_with_retrieval`. -/
def summaryInstruction (query : String) : String :=
  "Produce a comprehensive summary. Query: " ++ query

/-- Modelled from the spec (§4.5): `answer_question_with_rag` — resolve
`top_k`, retrieve, assemble the prompt, invoke the generation
collaborator `gen`, and report the chunks used.  `emb` is the embedding
collaborator. -/
def answer_question_with_rag (sim : List ℚ → List ℚ → ℚ) (gen : String → String)
    (emb : String → List ℚ) (idx : List Chunk) (question : String)
    (topK : Option Int) : RagAnswerResult :=
  let retrieved :=
    (EmbeddingIndex.query sim (emb question) (resolveTopK topK) idx).map Prod.fst
  { question := question
    answer := gen (PromptAssembler.assemble (answerInstruction question) retrieved)
    num_chunks_used := retrieved.length
    relevant_chunks := retrieved.map Chunk.text }

/-- Modelled from the spec (§4.5): `summarize_with_retrieval` — same
shape, returning the generated summary and the chunks used. -/
def summarize_with_retrieval (sim : List ℚ → List ℚ → ℚ) (gen : String → String)
    (emb : String → List ℚ) (idx : List Chunk) (query : String)
    (topK : Option Int) : String × List String :=
  let retrieved :=
    (EmbeddingIndex.query sim (emb query) (resolveTopK topK) idx).map Prod.fst
  (gen (PromptAssembler.assemble (summaryInstruction query) retrieved),
   retrieved.map Chunk.text)

/-- Modelled from the spec (§4.1, §8): the character ranges the Chunker
produces for a text of length `L` with chunk size `S` and overlap `O` —
each chunk spans `[start, min (start+S) L)` and the next chunk starts
`O` characters before the previous end.  The sentence-boundary
preference of §4.1 is not modelled: Scenario A of §8 fixes the
hard-split offsets `[0,500)`, `[450,950)`, … that this recursion
produces.  `fuel` is spent one unit per chunk; `chunkRanges` supplies
enough for any text. -/
def chunkRangesAux (L S O : Nat) : Nat → Nat → List (Nat × Nat)
| 0, _ => []
| fuel + 1, start =>
  if start < L then
    if start + S < L then (start, start + S) :: chunkRangesAux L S O fuel (start + S - O)
    else [(start, L)]
  else []

/-- Modelled from the spec (§4.1): chunk character ranges for a text of
length `L`. -/
def chunkRanges (L S O : Nat) : List (Nat × Nat) :=
  chunkRangesAux L S O (L + 1) 0

/-- Modelled from the spec (§4.1): `Chunker.split` — the chunk texts with
their ranges. -/
def Chunker.split (text : List Char) (S O : Nat) : List (List Char × Nat × Nat) :=
  (chunkRanges text.length S O).map (fun p => ((text.drop p.1).take (p.2 - p.1), p.1, p.2))

/-! ## Theorems -/

/-- C1, the claim as stated is false: a request supplying `top_k = 0` or
`top_k = 999` is rejected by the pydantic bounds `ge=1, le=20` with a
validation error — it is not clamped into `[1, 20]` and processed. -/
theorem C1_counterexample :
    RAGSummaryRequest.validateTopK (some 0) =
        .error ⟨"top_k", "Input should be greater than or equal to 1"⟩
    ∧ RAGSummaryRequest.validateTopK (some 999) =
        .error ⟨"top_k", "Input should be less than or equal to 20"⟩
    ∧ RAGQuestionRequest.validateTopK (some 0) =
        .error ⟨"top_k", "Input should be greater than or equal to 1"⟩
    ∧ RAGQuestionRequest.validateTopK (some 999) =
        .error ⟨"top_k", "Input should be less than or equal to 20"⟩ :=
  ⟨rfl, rfl, rfl, rfl⟩

/-- C1 as amended: an absent `top_k` is accepted, a supplied value inside
`[1, 20]` is accepted unchanged, and a supplied value outside `[1, 20]` is
rejected with a validation error (not clamped), on both the RAG summarize
and the RAG question request schemas. -/
theorem C1_topk_validation (v : Int) :
    RAGSummaryRequest.validateTopK none = .ok none
    ∧ RAGQuestionRequest.validateTopK none = .ok none
    ∧ (1 ≤ v → v ≤ 20 →
        RAGSummaryRequest.validateTopK (some v) = .ok (some v)
        ∧ RAGQuestionRequest.validateTopK (some v) = .ok (some v))
    ∧ (v < 1 ∨ 20 < v →
        (∃ e, RAGSummaryRequest.validateTopK (some v) = .error e)
        ∧ (∃ e, RAGQuestionRequest.validateTopK (some v) = .error e)) := by
  refine ⟨rfl, rfl, fun h1 h2 => ?_, fun h => ?_⟩
  · constructor <;>
      simp [RAGSummaryRequest.validateTopK, RAGQuestionRequest.validateTopK,
        not_lt.mpr h1, not_lt.mpr h2]
  · rcases h with h | h
    · refine ⟨⟨⟨"top_k", "Input should be greater than or equal to 1"⟩, ?_⟩,
        ⟨⟨"top_k", "Input should be greater than or equal to 1"⟩, ?_⟩⟩ <;>
        simp [RAGSummaryRequest.validateTopK, RAGQuestionRequest.validateTopK, h]
    · refine ⟨⟨⟨"top_k", "Input should be less than or equal to 20"⟩, ?_⟩,
        ⟨⟨"top_k", "Input should be less than or equal to 20"⟩, ?_⟩⟩ <;>
        simp [RAGSummaryRequest.validateTopK, RAGQuestionRequest.validateTopK,
          not_lt.mpr (le_of_lt (lt_of_le_of_lt (show (1 : Int) ≤ 20 by norm_num) h)), h]

/-- Witness for `C1_topk_validation` at `v = 7` and `v = 999`. -/
theorem C1_topk_validation_witness :
    RAGSummaryRequest.validateTopK (some 7) = .ok (some 7)
    ∧ ∃ e, RAGQuestionRequest.validateTopK (some 999) = .error e :=
  ⟨((C1_topk_validation 7).2.2.1 (by decide) (by decide)).1,
   ((C1_topk_validation 999).2.2.2 (Or.inr (by decide))).2⟩

/-- C2, the claim as stated is false: the RAG summarize response cannot
contain the chunks used — two pipeline outcomes with the same summary and
different chunks (here `["c"]` and `[]`) produce the identical
`SummaryResponse`, so no reading of the response recovers the chunks. -/
theorem C2_counterexample :
    ¬ ∃ f : SummaryResponse → List String,
        ∀ s chunks, f (rag_summarize (s, chunks)) = chunks := by
  rintro ⟨f, hf⟩
  have h1 := hf "s" ["c"]
  have h2 := hf "s" []
  have he : rag_summarize ("s", ["c"]) = rag_summarize ("s", []) := rfl
  rw [he, h2] at h1
  simp at h1

/-- C2 as amended: a successful RAG summarize call returns the generated
summary text together with `input_length = 0` and the summary's length; the
chunks used to ground it are not part of the response (the response is
independent of them). -/
theorem C2_summary_response (s : String) (used other : List String) :
    (rag_summarize (s, used)).summary = s
    ∧ (rag_summarize (s, used)).input_length = 0
    ∧ (rag_summarize (s, used)).summary_length = s.length
    ∧ rag_summarize (s, used) = rag_summarize (s, other) :=
  ⟨rfl, rfl, rfl, rfl⟩

/-- C3, the claim as stated is false: the ingest response reports no chunk
count — two pipeline runs indexing different numbers of chunks (here 0
and 1) produce the identical `DocumentUploadResponse`, so no reading of
the response recovers the number of chunks indexed. -/
theorem C3_counterexample :
    ¬ ∃ f : DocumentUploadResponse → Nat,
        ∀ name content k, f (upload_document name content k) = k := by
  rintro ⟨f, hf⟩
  have h0 := hf "a.txt" [] 0
  have h1 := hf "a.txt" [] 1
  have he : upload_document "a.txt" [] 0 = upload_document "a.txt" [] 1 := rfl
  rw [he, h1] at h0
  simp at h0

/-- C3 as amended: a successful document ingestion reports the filename,
the file size, the format, `processed = true` and a fixed success
message; the number of chunks produced and inserted is not reported (the
response is independent of it). -/
theorem C3_upload_response (name : String) (content : List Nat) (k1 k2 : Nat) :
    upload_document name content k1 = upload_document name content k2
    ∧ (upload_document name content k1).file_size = content.length
    ∧ (upload_document name content k1).processed = true
    ∧ (upload_document name content k1).message
        = "Document processed and indexed successfully" :=
  ⟨rfl, rfl, rfl, rfl⟩

/-- C4: a successful RAG answer call returns the answer text, the list of
chunks used (`relevant_chunks`), and `num_chunks_used` equal to the
number of chunks used in generation — the length of that list. -/
theorem C4_rag_answer_fields (sim : List ℚ → List ℚ → ℚ) (gen : String → String)
    (emb : String → List ℚ) (idx : List Chunk) (question : String)
    (topK : Option Int) :
    (rag_question (answer_question_with_rag sim gen emb idx question topK)).answer
        = (answer_question_with_rag sim gen emb idx question topK).answer
    ∧ (rag_question (answer_question_with_rag sim gen emb idx question topK)).relevant_chunks
        = some ((answer_question_with_rag sim gen emb idx question topK).relevant_chunks)
    ∧ (rag_question (answer_question_with_rag sim gen emb idx question topK)).num_chunks_used
        = (((rag_question (answer_question_with_rag sim gen emb idx question topK)).relevant_chunks).getD []).length
    ∧ (rag_question (answer_question_with_rag sim gen emb idx question topK)).question
        = question := by
  refine ⟨rfl, rfl, ?_, rfl⟩
  simp [rag_question, answer_question_with_rag]

/-- C5: querying an empty index, with any `top_k`, reports
`chunk_count = 0`, still invokes the generation collaborator on the
prompt assembled from an empty context, and returns normally — for the
answer operation and the summarize operation alike. -/
theorem C5_empty_index (sim : List ℚ → List ℚ → ℚ) (gen : String → String)
    (emb : String → List ℚ) (question query : String) (topK topK2 : Option Int) :
    (answer_question_with_rag sim gen emb [] question topK).num_chunks_used = 0
    ∧ (answer_question_with_rag sim gen emb [] question topK).relevant_chunks = []
    ∧ (answer_question_with_rag sim gen emb [] question topK).answer
        = gen (PromptAssembler.assemble (answerInstruction question) [])
    ∧ (summarize_with_retrieval sim gen emb [] query topK2).1
        = gen (PromptAssembler.assemble (summaryInstruction query) [])
    ∧ (summarize_with_retrieval sim gen emb [] query topK2).2 = [] := by
  refine ⟨?_, ?_, ?_, ?_, ?_⟩ <;>
    simp [answer_question_with_rag, summarize_with_retrieval, EmbeddingIndex.query,
      List.insertionSort]

/-- C8: the health check reports `model_loaded` as
`is_loaded() if is_available() else False`, so whenever
`ml_available = false` the response reports `model_loaded = false`. -/
theorem C8_model_loaded_implies_ml_available (version : String)
    (available loaded : Bool)
    (h : (health_check version available loaded).ml_available = false) :
    (health_check version available loaded).model_loaded = false := by
  have ha : available = false := h
  simp [health_check, ha]

/-- Witness for `C8_model_loaded_implies_ml_available` with the ML
dependencies unavailable. -/
theorem C8_witness :
    (health_check "1.0.0" false true).ml_available = false
    ∧ (health_check "1.0.0" false true).model_loaded = false :=
  ⟨rfl, C8_model_loaded_implies_ml_available "1.0.0" false true rfl⟩

/-- C10: uploading a report with empty file content fails with HTTP 500
(the internal 400 "File is empty" re-wrapped as
"Upload failed: 400: File is empty" by the generic exception handler),
and the state is unchanged: no file lands in the upload directory and no
row is inserted into the reports table. -/
theorem C10_empty_upload (pid : Int) (doctor title filename : String)
    (content : List Nat) (st : ReportsState) (h : content = []) :
    upload_report pid doctor title filename content st
      = (.error ⟨500, "Upload failed: 400: File is empty"⟩, st) := by
  subst h
  rfl

/-- Witness for `C10_empty_upload` on a concrete empty upload. -/
theorem C10_empty_upload_witness :
    upload_report 1 "Dr. A" "X-ray" "scan.pdf" [] ⟨0, [], []⟩
      = (.error ⟨500, "Upload failed: 400: File is empty"⟩, ⟨0, [], []⟩) :=
  C10_empty_upload 1 "Dr. A" "X-ray" "scan.pdf" [] ⟨0, [], []⟩ rfl

/-- C6: for every index state with `N` stored chunks and every `k`,
`EmbeddingIndex.query` returns exactly `k` results when `N ≥ k`, all `N`
when `N < k`, the empty sequence when the index is empty, and the result
is sorted by non-increasing similarity score — never an error (the
operation is total). -/
theorem C6_query_contract (sim : List ℚ → List ℚ → ℚ) (q : List ℚ) (k : Nat)
    (idx : List Chunk) :
    (k ≤ idx.length → (EmbeddingIndex.query sim q k idx).length = k)
    ∧ (idx.length < k → (EmbeddingIndex.query sim q k idx).length = idx.length)
    ∧ (idx = [] → EmbeddingIndex.query sim q k idx = [])
    ∧ List.Pairwise (fun a b : Chunk × ℚ => b.2 ≤ a.2)
        (EmbeddingIndex.query sim q k idx) := by
  have hlen : (EmbeddingIndex.query sim q k idx).length = min k idx.length := by
    simp [EmbeddingIndex.query]
  refine ⟨fun h => ?_, fun h => ?_, fun h => ?_, ?_⟩
  · rw [hlen]; omega
  · rw [hlen]; omega
  · subst h; simp [EmbeddingIndex.query]
  · have hs := List.sorted_insertionSort rankLE
      (idx.map (fun c => (c, sim q c.embedding)))
    have hs' : List.Pairwise (fun a b : Chunk × ℚ => b.2 ≤ a.2)
        (List.insertionSort rankLE (idx.map (fun c => (c, sim q c.embedding)))) := by
      refine hs.imp ?_
      rintro a b (hab | ⟨hab, -⟩)
      · exact le_of_lt hab
      · exact le_of_eq hab.symm
    exact hs'.sublist (List.take_sublist k _)

/-- Witness for `C6_query_contract`: a two-chunk index queried with
`k = 1` yields exactly one result; the empty index yields none. -/
theorem C6_query_contract_witness :
    (EmbeddingIndex.query (fun _ _ => 0) [] 1
        [⟨0, 0, "a", 0, 1, []⟩, ⟨1, 0, "b", 1, 2, []⟩]).length = 1
    ∧ EmbeddingIndex.query (fun _ _ => 0) [] 5 [] = [] :=
  ⟨(C6_query_contract (fun _ _ => 0) [] 1
      [⟨0, 0, "a", 0, 1, []⟩, ⟨1, 0, "b", 1, 2, []⟩]).1 (by simp),
   (C6_query_contract (fun _ _ => 0) [] 5 []).2.2.1 rfl⟩

/-- A nonempty chunk-range list starts at `start` and ends its first chunk
at `min (start + S) L`. -/
theorem chunkRangesAux_head (L S O fuel start : Nat) :
    chunkRangesAux L S O fuel start = []
    ∨ ∃ tl, chunkRangesAux L S O fuel start = (start, min (start + S) L) :: tl := by
  cases fuel with
  | zero => exact Or.inl rfl
  | succ fuel =>
    simp only [chunkRangesAux]
    by_cases hL : start < L
    · rw [if_pos hL]
      by_cases hSL : start + S < L
      · rw [if_pos hSL, min_eq_left (le_of_lt hSL)]
        exact Or.inr ⟨_, rfl⟩
      · rw [if_neg hSL, min_eq_right (by omega)]
        exact Or.inr ⟨[], rfl⟩
    · rw [if_neg hL]
      exact Or.inl rfl

/-- Coverage: with enough fuel, every position of `[start, L)` lies inside
one of the produced ranges. -/
theorem chunkRangesAux_cover (L S O : Nat) (hOS : O < S) :
    ∀ fuel start, L - start < fuel → ∀ x, start ≤ x → x < L →
      ∃ p ∈ chunkRangesAux L S O fuel start, p.1 ≤ x ∧ x < p.2 := by
  intro fuel
  induction fuel with
  | zero => intro start h; omega
  | succ fuel ih =>
    intro start hfuel x hsx hxL
    have hstart : start < L := lt_of_le_of_lt hsx hxL
    simp only [chunkRangesAux]
    rw [if_pos hstart]
    by_cases hSL : start + S < L
    · rw [if_pos hSL]
      by_cases hx : x < start + S
      · exact ⟨(start, start + S), List.mem_cons_self .., hsx, hx⟩
      · push_neg at hx
        obtain ⟨p, hp, hpx⟩ := ih (start + S - O) (by omega) x (by omega) hxL
        exact ⟨p, List.mem_cons_of_mem _ hp, hpx⟩
    · rw [if_neg hSL]
      exact ⟨(start, L), by simp, hsx, hxL⟩

/-- Adjacency: each chunk starts `O` characters before the previous chunk
ends, inside the previous chunk, and ends no earlier than it. -/
theorem chunkRangesAux_chain (L S O : Nat) (hOS : O < S) :
    ∀ fuel start,
      List.Chain' (fun p q : Nat × Nat => q.1 + O = p.2 ∧ p.1 ≤ q.1 ∧ p.2 ≤ q.2)
        (chunkRangesAux L S O fuel start) := by
  intro fuel
  induction fuel with
  | zero => intro start; simp [chunkRangesAux]
  | succ fuel ih =>
    intro start
    simp only [chunkRangesAux]
    by_cases hL : start < L
    · rw [if_pos hL]
      by_cases hSL : start + S < L
      · rw [if_pos hSL]
        rw [List.chain'_cons']
        refine ⟨?_, ih (start + S - O)⟩
        intro q hq
        rcases chunkRangesAux_head L S O fuel (start + S - O) with hnil | ⟨tl, hcons⟩
        · rw [hnil] at hq; simp at hq
        · rw [hcons] at hq
          simp only [List.head?_cons, Option.mem_def, Option.some.injEq] at hq
          subst hq
          refine ⟨by omega, by omega, ?_⟩
          have h1 : start + S ≤ start + S - O + S := by omega
          have h2 : start + S ≤ L := le_of_lt hSL
          exact le_min h1 h2
      · rw [if_neg hSL]
        exact List.chain'_singleton _
    · rw [if_neg hL]
      exact List.chain'_nil

/-- C7: for every text length `L` split with `chunk_size = S`,
`overlap = O`, `O < S`, the produced ranges cover `[0, L)` and every
adjacent pair of chunks overlaps on exactly the `O` characters
`[next.start, prev.end)` (so by at least `min(O, remaining length)`):
the next chunk starts `O` before the previous ends, within it, and ends
no earlier.  In particular a 5000-character text with `S = 500`,
`O = 50` yields 11 chunks, the first spanning `[0, 500)` and the second
`[450, 950)`. -/
theorem C7_chunker (L S O : Nat) (hOS : O < S) :
    (∀ x, x < L → ∃ p ∈ chunkRanges L S O, p.1 ≤ x ∧ x < p.2)
    ∧ List.Chain' (fun p q : Nat × Nat => q.1 + O = p.2 ∧ p.1 ≤ q.1 ∧ p.2 ≤ q.2)
        (chunkRanges L S O)
    ∧ (chunkRanges 5000 500 50).length = 11
    ∧ (chunkRanges 5000 500 50).take 2 = [(0, 500), (450, 950)] := by
  refine ⟨fun x hx =>
      chunkRangesAux_cover L S O hOS (L + 1) 0 (by omega) x (Nat.zero_le x) hx,
    chunkRangesAux_chain L S O hOS (L + 1) 0, ?_, ?_⟩ <;> decide

/-- Witness for `C7_chunker`: Scenario A, with position 4999 covered. -/
theorem C7_chunker_witness :
    (∃ p ∈ chunkRanges 5000 500 50, p.1 ≤ 4999 ∧ 4999 < p.2)
    ∧ (chunkRanges 5000 500 50).length = 11 :=
  ⟨(C7_chunker 5000 500 50 (by decide)).1 4999 (by decide),
   (C7_chunker 5000 500 50 (by decide)).2.2.1⟩

/-- A decimal digit character carries exactly its value. -/
theorem charToDigit_digitChar (d : Nat) (h : d < 10) :
    charToDigit (digitChar d) = some d := by
  interval_cases d <;> decide

/-- A decimal digit character is none of the JSON delimiters or markers. -/
theorem digitChar_ne (d : Nat) (h : d < 10) :
    digitChar d ≠ '"' ∧ digitChar d ≠ '\\' ∧ digitChar d ≠ '-'
    ∧ digitChar d ≠ '[' ∧ digitChar d ≠ ']' ∧ digitChar d ≠ ','
    ∧ digitChar d ≠ ':' ∧ digitChar d ≠ lbraceChar ∧ digitChar d ≠ rbraceChar := by
  interval_cases d <;> decide

/-- `parseDigits` consumes nothing from a non-digit-headed input. -/
theorem parseDigits_stop (cs : List Char) (h : headNotDigit cs = true) :
    parseDigits cs = ([], cs) := by
  cases cs with
  | nil => rfl
  | cons c t =>
    simp only [headNotDigit, Option.isNone_iff_eq_none] at h
    simp [parseDigits, h]

/-- `parseDigits` consumes exactly a rendered digit run, stopping at the
non-digit-headed remainder. -/
theorem parseDigits_append (ds : List Nat) (h : ∀ d ∈ ds, d < 10)
    (rest : List Char) (hrest : headNotDigit rest = true) :
    parseDigits (ds.map digitChar ++ rest) = (ds, rest) := by
  induction ds with
  | nil => simpa using parseDigits_stop rest hrest
  | cons d t ih =>
    have hd := charToDigit_digitChar d (h d (by simp))
    have ht := ih (fun x hx => h x (by simp [hx]))
    simp [parseDigits, hd, ht]

/-- With enough fuel, `natChars` renders exactly the base-10 digits of a
positive number, most significant first. -/
theorem natChars_eq (fuel : Nat) : ∀ n, n < fuel → 0 < n →
    natChars fuel n = ((Nat.digits 10 n).map digitChar).reverse := by
  induction fuel with
  | zero => intro n h; omega
  | succ f ih =>
    intro n hn hpos
    simp only [natChars]
    by_cases h10 : n < 10
    · rw [if_pos h10, Nat.digits_def' (by norm_num : (1 : ℕ) < 10) hpos,
        Nat.mod_eq_of_lt h10, Nat.div_eq_of_lt h10]
      simp
    · rw [if_neg h10]
      have hd : 0 < n / 10 := Nat.div_pos (by omega) (by norm_num)
      have hlt : n / 10 < f := by
        have := Nat.div_lt_self hpos (by norm_num : 1 < 10)
        omega
      rw [ih (n / 10) hlt hd, Nat.digits_def' (by norm_num : (1 : ℕ) < 10) hpos]
      simp

/-- `encodeNat` renders the base-10 digit list, most significant first. -/
theorem encodeNat_eq (n : Nat) :
    encodeNat n = (if n = 0 then [0] else (Nat.digits 10 n).reverse).map digitChar := by
  by_cases h : n = 0
  · subst h; rfl
  · rw [if_neg h, encodeNat, natChars_eq (n + 1) n (by omega) (by omega),
      List.map_reverse]

/-- Every rendered digit value is below the base. -/
theorem encodeNat_digits_lt (n : Nat) :
    ∀ d ∈ (if n = 0 then [0] else (Nat.digits 10 n).reverse), d < 10 := by
  by_cases h : n = 0
  · simp [h]
  · simp only [if_neg h, List.mem_reverse]
    exact fun d hd => Nat.digits_lt_base (by norm_num) hd

/-- The rendered digit list is never empty. -/
theorem encodeNat_digits_ne_nil (n : Nat) :
    (if n = 0 then [0] else (Nat.digits 10 n).reverse) ≠ [] := by
  by_cases h : n = 0
  · simp [h]
  · simp [if_neg h, List.reverse_eq_nil_iff, Nat.digits_ne_nil_iff_ne_zero, h]

/-- The decimal codec round-trip: `parseNat` inverts `encodeNat` whenever
the remainder cannot extend the digit run. -/
theorem parseNat_encodeNat (n : Nat) (rest : List Char)
    (hrest : headNotDigit rest = true) :
    parseNat (encodeNat n ++ rest) = some (n, rest) := by
  rw [encodeNat_eq]
  have hpd := parseDigits_append _ (encodeNat_digits_lt n) rest hrest
  by_cases h : n = 0
  · rw [if_pos h] at hpd ⊢
    unfold parseNat
    rw [hpd]
    simp [Nat.ofDigits, h]
  · rw [if_neg h] at hpd ⊢
    obtain ⟨d, t, hD⟩ := List.exists_cons_of_ne_nil
      (show (Nat.digits 10 n).reverse ≠ [] by
        simp [List.reverse_eq_nil_iff, Nat.digits_ne_nil_iff_ne_zero, h])
    rw [hD] at hpd ⊢
    unfold parseNat
    rw [hpd]
    show some (Nat.ofDigits 10 (d :: t).reverse, rest) = some (n, rest)
    rw [← hD, List.reverse_reverse, Nat.ofDigits_digits]

/-- The string-body codec round-trip: with enough fuel, parsing an
escaped body stops at the closing quote and recovers the original
characters. -/
theorem parseStrAux_escBody (s : List Char) : ∀ fuel rest,
    (escBody s).length < fuel →
    parseStrAux fuel (escBody s ++ '"' :: rest) = some (s, rest) := by
  induction s with
  | nil =>
    intro fuel rest hf
    cases fuel with
    | zero => omega
    | succ f => rfl
  | cons c t ih =>
    intro fuel rest hf
    have hstep : escBody (c :: t) = escapeChar c ++ escBody t := by
      simp [escBody]
    rw [hstep, List.append_assoc]
    rw [hstep, List.length_append] at hf
    cases fuel with
    | zero => omega
    | succ f =>
      by_cases hq : c = '"'
      · subst hq
        have hlen : (escapeChar '"').length = 2 := by decide
        have := ih f rest (by omega)
        simp [escapeChar, parseStrAux, this]
      · by_cases hb : c = '\\'
        · subst hb
          have hlen : (escapeChar '\\').length = 2 := by decide
          have := ih f rest (by omega)
          simp [escapeChar, parseStrAux, this]
        · have hlen : (escapeChar c).length = 1 := by simp [escapeChar, hq, hb]
          have := ih f rest (by omega)
          simp [escapeChar, hq, hb, parseStrAux, this]

/-- The string-body codec round-trip for `parseStr`. -/
theorem parseStr_escBody (s : List Char) (rest : List Char) :
    parseStr (escBody s ++ '"' :: rest) = some (s, rest) := by
  unfold parseStr
  apply parseStrAux_escBody
  simp only [List.length_append, List.length_cons]
  omega

/-- Negative integers render as a minus sign before the magnitude. -/
theorem encodeInt_neg (n : Int) (h : n < 0) :
    encodeInt n = '-' :: encodeNat n.natAbs := by
  simp [encodeInt, h]

/-- Non-negative integers render as their magnitude. -/
theorem encodeInt_nonneg (n : Int) (h : ¬n < 0) :
    encodeInt n = encodeNat n.natAbs := by
  simp [encodeInt, h]

/-- A rendered natural starts with a digit character. -/
theorem encodeNat_head (n : Nat) :
    ∃ d t, d < 10 ∧ encodeNat n = digitChar d :: t := by
  rw [encodeNat_eq]
  obtain ⟨d, t, hD⟩ := List.exists_cons_of_ne_nil (encodeNat_digits_ne_nil n)
  refine ⟨d, t.map digitChar, ?_, by rw [hD]; rfl⟩
  exact encodeNat_digits_lt n d (by rw [hD]; exact List.mem_cons_self _ _)

/-- Every rendered value is nonempty and starts with a character that
closes no array. -/
theorem dumpChars_head (v : Json) :
    ∃ c t, Json.dumpChars v = c :: t ∧ c ≠ ']' := by
  cases v with
  | null => exact ⟨'n', _, rfl, by decide⟩
  | bool b =>
    cases b with
    | true => exact ⟨'t', _, rfl, by decide⟩
    | false => exact ⟨'f', _, rfl, by decide⟩
  | str s => exact ⟨'"', _, rfl, by decide⟩
  | arr items => exact ⟨'[', _, rfl, by decide⟩
  | obj members => exact ⟨lbraceChar, _, rfl, by decide⟩
  | num n =>
    by_cases h : n < 0
    · exact ⟨'-', encodeNat n.natAbs,
        by rw [show Json.dumpChars (.num n) = encodeInt n from rfl, encodeInt_neg n h],
        by decide⟩
    · obtain ⟨d, t, hd10, hE⟩ := encodeNat_head n.natAbs
      refine ⟨digitChar d, t, ?_, (digitChar_ne d hd10).2.2.2.2.1⟩
      rw [show Json.dumpChars (.num n) = encodeInt n from rfl, encodeInt_nonneg n h, hE]

/-- Every rendered value is nonempty. -/
theorem dumpChars_length_pos (v : Json) : 1 ≤ (Json.dumpChars v).length := by
  obtain ⟨c, t, hd, -⟩ := dumpChars_head v
  simp [hd]

/-- Values need at least one unit of fuel. -/
theorem json_size_pos (j : Json) : 1 ≤ Json.size j := by
  cases j <;> simp only [Json.size] <;> omega

/-- Item lists need at least one unit of fuel. -/
theorem jsonList_size_pos (xs : JsonList) : 1 ≤ JsonList.size xs := by
  cases xs <;> simp only [JsonList.size] <;> omega

/-- Member lists need at least one unit of fuel. -/
theorem jsonObj_size_pos (kvs : JsonObj) : 1 ≤ JsonObj.size kvs := by
  cases kvs <;> simp only [JsonObj.size] <;> omega

/-- The fuel a value needs is at most the length of its rendering (so
`length + 1` units always suffice). -/
theorem size_le_len_all (n : Nat) :
    (∀ j : Json, Json.size j ≤ n → Json.size j ≤ (Json.dumpChars j).length)
    ∧ (∀ xs : JsonList,
        JsonList.size xs ≤ n → JsonList.size xs ≤ (JsonList.dumpItems xs).length)
    ∧ (∀ kvs : JsonObj,
        JsonObj.size kvs ≤ n → JsonObj.size kvs ≤ (JsonObj.dumpMembers kvs).length) := by
  induction n with
  | zero =>
    refine ⟨fun j hj => ?_, fun xs hx => ?_, fun kvs hk => ?_⟩
    · have := json_size_pos j; omega
    · have := jsonList_size_pos xs; omega
    · have := jsonObj_size_pos kvs; omega
  | succ f ih =>
    obtain ⟨ihJ, ihL, ihO⟩ := ih
    refine ⟨fun j hj => ?_, fun xs hx => ?_, fun kvs hk => ?_⟩
    · cases j with
      | null => simp [Json.size, Json.dumpChars]
      | bool b => cases b <;> simp [Json.size, Json.dumpChars]
      | num m =>
        have h1 := dumpChars_length_pos (.num m)
        simpa [Json.size] using h1
      | str s => simp [Json.size, Json.dumpChars, encodeStr]
      | arr items =>
        simp only [Json.size] at hj
        have h2 := ihL items (by omega)
        simp only [Json.size, Json.dumpChars, List.length_cons]
        omega
      | obj members =>
        simp only [Json.size] at hj ⊢
        have h2 := ihO members (by omega)
        simp only [Json.dumpChars, List.length_cons]
        omega
    · cases xs with
      | nil => simp [JsonList.size, JsonList.dumpItems]
      | cons v tl =>
        simp only [JsonList.size] at hx
        have hv := ihJ v (by omega)
        have hpos := dumpChars_length_pos v
        cases tl with
        | nil =>
          simp only [JsonList.size, JsonList.dumpItems, List.length_append,
            List.length_cons, List.length_nil]
          omega
        | cons w tl2 =>
          have htl := ihL (.cons w tl2) (by omega)
          simp only [JsonList.size, JsonList.dumpItems, List.length_append,
            List.length_cons] at htl ⊢
          omega
    · cases kvs with
      | nil => simp [JsonObj.size, JsonObj.dumpMembers]
      | cons k v tl =>
        simp only [JsonObj.size] at hk
        have hv := ihJ v (by omega)
        have hpos := dumpChars_length_pos v
        cases tl with
        | nil =>
          simp only [JsonObj.size, JsonObj.dumpMembers, encodeStr,
            List.length_append, List.length_cons, List.length_nil]
          omega
        | cons k2 v2 tl2 =>
          have htl := ihO (.cons k2 v2 tl2) (by omega)
          simp only [JsonObj.size, JsonObj.dumpMembers, encodeStr,
            List.length_append, List.length_cons] at htl ⊢
          omega

/-- The minus sign does not open an object. -/
theorem dash_ne_lbrace : ('-' : Char) ≠ lbraceChar := by decide

/-- A quote does not open an object. -/
theorem quote_ne_lbrace : ('"' : Char) ≠ lbraceChar := by decide

/-- An opening bracket does not open an object. -/
theorem lbracket_ne_lbrace : ('[' : Char) ≠ lbraceChar := by decide

/-- A quote does not close an object. -/
theorem quote_ne_rbrace : ('"' : Char) ≠ rbraceChar := by decide

/-- The closing brace is not the member separator. -/
theorem rbrace_ne_comma : rbraceChar ≠ ',' := by decide

/-- `parseItems` on an input that does not open with the closing bracket
proceeds by parsing one value. -/
theorem parseItems_not_bracket (f : Nat) (c : Char) (t : List Char) (hc : c ≠ ']') :
    parseItems (f + 1) (c :: t) =
      match parseJson f (c :: t) with
      | some (v, rest1) =>
        match rest1 with
        | ']' :: rest2 => some (.arr (.cons v .nil), rest2)
        | ',' :: rest2 =>
          match parseItems f rest2 with
          | some (.arr tl, rest3) => some (.arr (.cons v tl), rest3)
          | _ => none
        | _ => none
      | none => none := by
  simp only [parseItems]
  split
  · rename_i rest heq
    injection heq with h1 _
    exact absurd h1 hc
  · rfl

/-- The codec round-trip, by induction on the parser fuel: with fuel at
least the value's `size`, parsing a rendered value (followed by any
remainder that cannot extend a number literal) succeeds and consumes
exactly the rendering — simultaneously for values, array items and
object members. -/
theorem parse_dump_all (fuel : Nat) :
    (∀ j : Json, Json.size j ≤ fuel → ∀ rest, headNotDigit rest = true →
        parseJson fuel (Json.dumpChars j ++ rest) = some (j, rest))
    ∧ (∀ xs : JsonList, JsonList.size xs ≤ fuel → ∀ rest, headNotDigit rest = true →
        parseItems fuel (JsonList.dumpItems xs ++ rest) = some (.arr xs, rest))
    ∧ (∀ kvs : JsonObj, JsonObj.size kvs ≤ fuel → ∀ rest, headNotDigit rest = true →
        parseMembers fuel (JsonObj.dumpMembers kvs ++ rest) = some (.obj kvs, rest)) := by
  induction fuel with
  | zero =>
    refine ⟨fun j hj => ?_, fun xs hx => ?_, fun kvs hk => ?_⟩
    · have := json_size_pos j; omega
    · have := jsonList_size_pos xs; omega
    · have := jsonObj_size_pos kvs; omega
  | succ f ih =>
    obtain ⟨ihJ, ihL, ihO⟩ := ih
    refine ⟨fun j hj rest hrest => ?_, fun xs hx rest hrest => ?_,
      fun kvs hk rest hrest => ?_⟩
    · cases j with
      | null => rfl
      | bool b => cases b <;> rfl
      | num m =>
        by_cases hneg : m < 0
        · rw [show Json.dumpChars (.num m) = encodeInt m from rfl,
            encodeInt_neg m hneg, List.cons_append]
          have hp := parseNat_encodeNat m.natAbs rest hrest
          simp [parseJson, hp, dash_ne_lbrace]
          simp [abs_of_neg hneg]
        · obtain ⟨d, t, hd10, hE⟩ := encodeNat_head m.natAbs
          have hne := digitChar_ne d hd10
          have hp := parseNat_encodeNat m.natAbs rest hrest
          have hm : ((m.natAbs : Nat) : Int) = m := by omega
          rw [show Json.dumpChars (.num m) = encodeInt m from rfl,
            encodeInt_nonneg m hneg, hE, List.cons_append]
          simp only [parseJson]
          rw [if_neg hne.2.2.2.2.2.2.2.1, if_neg hne.1, if_neg hne.2.2.1,
            if_neg hne.2.2.2.1, charToDigit_digitChar d hd10]
          rw [← List.cons_append, ← hE, hp]
          simp [hm]
      | str s =>
        have hps := parseStr_escBody s rest
        rw [show Json.dumpChars (.str s) = '"' :: (escBody s ++ ['"']) from rfl,
          List.cons_append, List.append_assoc]
        simp [parseJson, hps, quote_ne_lbrace]
      | arr items =>
        simp only [Json.size] at hj
        have h2 := ihL items (by omega) rest hrest
        rw [show Json.dumpChars (.arr items) = '[' :: JsonList.dumpItems items from rfl,
          List.cons_append]
        simp [parseJson, h2, lbracket_ne_lbrace]
      | obj members =>
        simp only [Json.size] at hj
        have h2 := ihO members (by omega) rest hrest
        rw [show Json.dumpChars (.obj members)
            = lbraceChar :: JsonObj.dumpMembers members from rfl, List.cons_append]
        simp [parseJson, h2]
    · cases xs with
      | nil => rfl
      | cons v tl =>
        obtain ⟨c, t, hdv, hcv⟩ := dumpChars_head v
        simp only [JsonList.size] at hx
        cases tl with
        | nil =>
          have hv := ihJ v (by omega) (']' :: rest) rfl
          rw [show JsonList.dumpItems (.cons v .nil)
              = Json.dumpChars v ++ [']'] from rfl, List.append_assoc,
            List.singleton_append, hdv, List.cons_append,
            parseItems_not_bracket f c _ hcv, ← List.cons_append, ← hdv]
          simp only [hv]
        | cons w tl2 =>
          have hv := ihJ v (by omega)
            (',' :: (JsonList.dumpItems (.cons w tl2) ++ rest)) rfl
          have htl := ihL (.cons w tl2) (by omega) rest hrest
          rw [show JsonList.dumpItems (.cons v (.cons w tl2))
              = Json.dumpChars v ++ ',' :: JsonList.dumpItems (.cons w tl2) from rfl,
            List.append_assoc, List.cons_append, hdv, List.cons_append,
            parseItems_not_bracket f c _ hcv, ← List.cons_append, ← hdv]
          simp only [hv, htl]
    · cases kvs with
      | nil => rfl
      | cons k v tl =>
        simp only [JsonObj.size] at hk
        cases tl with
        | nil =>
          have hv := ihJ v (by omega) (rbraceChar :: rest) rfl
          have hks := parseStr_escBody k
            (':' :: (Json.dumpChars v ++ (rbraceChar :: rest)))
          have hshape : JsonObj.dumpMembers (.cons k v .nil) ++ rest
              = '"' :: (escBody k
                ++ '"' :: (':' :: (Json.dumpChars v ++ (rbraceChar :: rest)))) := by
            rw [show JsonObj.dumpMembers (.cons k v .nil)
                = encodeStr k ++ ':' :: (Json.dumpChars v ++ [rbraceChar]) from rfl]
            simp [encodeStr, List.append_assoc]
          rw [hshape]
          simp [parseMembers, hks, hv, quote_ne_rbrace, rbrace_ne_comma]
        | cons k2 v2 tl2 =>
          have hv := ihJ v (by omega)
            (',' :: (JsonObj.dumpMembers (.cons k2 v2 tl2) ++ rest)) rfl
          have htl := ihO (.cons k2 v2 tl2) (by omega) rest hrest
          have hks := parseStr_escBody k
            (':' :: (Json.dumpChars v
              ++ (',' :: (JsonObj.dumpMembers (.cons k2 v2 tl2) ++ rest))))
          have hshape : JsonObj.dumpMembers (.cons k v (.cons k2 v2 tl2)) ++ rest
              = '"' :: (escBody k ++ '"' :: (':' :: (Json.dumpChars v
                ++ (',' :: (JsonObj.dumpMembers (.cons k2 v2 tl2) ++ rest))))) := by
            rw [show JsonObj.dumpMembers (.cons k v (.cons k2 v2 tl2))
                = encodeStr k ++ ':' :: (Json.dumpChars v
                  ++ ',' :: JsonObj.dumpMembers (.cons k2 v2 tl2)) from rfl]
            simp [encodeStr, List.append_assoc]
          rw [hshape]
          simp [parseMembers, hks, hv, htl, quote_ne_rbrace]

/-- The `json` collaborator round-trip: decoding an encoded value is the
identity. -/
theorem loads_dumps (j : Json) : Json.loads (Json.dumps j) = some j := by
  have hlen := (size_le_len_all (Json.size j)).1 j le_rfl
  have h := (parse_dump_all ((Json.dumpChars j).length + 1)).1 j (by omega) [] rfl
  rw [List.append_nil] at h
  unfold Json.loads Json.dumps
  rw [h]

/-- C9: for every JSON-serializable medicines list handed to
`create_prescription`, the `medicines` field of the returned record is
the supplied list (encode then decode is the identity), and every record
`list_prescriptions` later returns for that patient with the new row's id
carries the same decoded list.  Freshness of the AUTOINCREMENT counter
(`id < nextId` for existing rows) is the SQLite primary-key invariant. -/
theorem C9_prescription_roundtrip (body : PrescriptionBody) (db : PrescriptionsDb)
    (hfresh : ∀ r ∈ db.rows, r.id < db.nextId) :
    (∃ item, (create_prescription body db).1 = some item
      ∧ item.medicines = some (.arr body.medicines)
      ∧ item.id = db.nextId)
    ∧ (∀ item ∈ list_prescriptions body.patient_id (create_prescription body db).2,
        item.id = db.nextId → item.medicines = some (.arr body.medicines)) := by
  constructor
  · have hfind : (create_prescription body db).1
        = some (rowToItem
            { id := db.nextId, patient_id := body.patient_id,
              doctor_name := body.doctor_name, diagnosis := body.diagnosis,
              medicines := Json.dumps (.arr body.medicines), notes := body.notes }) := by
      simp [create_prescription, selectPrescription, List.find?]
    exact ⟨_, hfind, by simp [rowToItem, loads_dumps], by simp [rowToItem]⟩
  · intro item hitem hid
    simp only [list_prescriptions, List.mem_map] at hitem
    obtain ⟨r, hrmem, rfl⟩ := hitem
    rw [List.mem_filter] at hrmem
    obtain ⟨hrmem, -⟩ := hrmem
    have hr' : r ∈ ((⟨db.nextId, body.patient_id, body.doctor_name, body.diagnosis,
        Json.dumps (.arr body.medicines), body.notes⟩ : PrescriptionRow) :: db.rows) := by
      simpa [create_prescription] using hrmem
    rcases List.mem_cons.mp hr' with hr | hr
    · subst hr
      simp [rowToItem, loads_dumps]
    · exfalso
      have hlt := hfresh r hr
      simp only [rowToItem] at hid
      omega

/-- Witness for `C9_prescription_roundtrip`: a two-element medicines list
inserted into an empty table. -/
theorem C9_prescription_roundtrip_witness :
    ∃ item, (create_prescription
        ⟨7, "Dr. B", "flu", .cons (.num 1) (.cons .null .nil), ""⟩ ⟨0, []⟩).1 = some item
      ∧ item.medicines = some (.arr (.cons (.num 1) (.cons .null .nil)))
      ∧ item.id = 0 :=
  (C9_prescription_roundtrip
    ⟨7, "Dr. B", "flu", .cons (.num 1) (.cons .null .nil), ""⟩ ⟨0, []⟩ (by simp)).1
